import Mathlib

/-!
Verification of `pg_migrate.py` (hackclub/warehouse-scripts): a shallow
embedding of the migration script's pure logic, with theorems checking the
specification's claims against it.

Strings are modelled as Lean `String`s (lists of characters); Python's
`in` substring test, `str.replace` (all non-overlapping occurrences, left
to right) and the one regular-expression search the script performs are
embedded as executable functions below.
-/

namespace PgMigrate

/-- Python's `pat in s` substring test, on character lists. -/
def containsSub (pat : List Char) : List Char → Bool
  | [] => pat.isEmpty
  | c :: rest => pat.isPrefixOf (c :: rest) || containsSub pat rest

/-- Python's `pat in s` substring test, on strings. -/
def strContains (s pat : String) : Bool :=
  containsSub pat.data s.data

/-- Python's `str.lower()` (ASCII case folding suffices for the
identifiers the script handles). -/
def pyLower (s : String) : String :=
  ⟨s.data.map Char.toLower⟩

/-- Worker for `replaceAll`: scan left to right; `skip > 0` means we are
still inside the pattern occurrence just replaced (its characters are
dropped); at `skip = 0`, a pattern match emits the replacement and skips
the rest of the matched occurrence, else the character is copied. -/
def replaceGo (pat new : List Char) : List Char → Nat → List Char
  | [], _ => []
  | _c :: rest, skip + 1 => replaceGo pat new rest skip
  | c :: rest, 0 =>
    if pat ≠ [] ∧ pat.isPrefixOf (c :: rest) then
      new ++ replaceGo pat new rest (pat.length - 1)
    else
      c :: replaceGo pat new rest 0

/-- Python's `s.replace(pat, new)`: every non-overlapping occurrence,
scanning left to right.  (The script only ever calls it with a non-empty
pattern; for an empty pattern this returns `s` unchanged.) -/
def replaceAll (pat new s : List Char) : List Char :=
  replaceGo pat new s 0

/-- `s.replace(pat, new)` on strings. -/
def strReplace (s pat new : String) : String :=
  ⟨replaceAll pat.data new.data s.data⟩

/-- Python's `\w` character class (ASCII letters, digits, underscore). -/
def isWordChar (c : Char) : Bool :=
  c.isAlphanum || c = '_'

/-- One column descriptor as returned by `get_columns` (a row of
`information_schema.columns`). -/
structure Column where
  column_name : String
  data_type : String
  column_default : Option String
  is_nullable : String
  deriving Repr, DecidableEq

/-- The tail of the regex `nextval\('(?:[\w]+\.)?([^']+)'` after the
literal `nextval('` has been consumed: greedily try the optional
`[\w]+\.` group first, then capture `[^']+` up to a closing quote;
on failure of the tail, backtrack to the empty optional group. -/
def regexTailCapture (cs : List Char) : Option (List Char) :=
  let attempt : List Char → Option (List Char) := fun rest =>
    let run := rest.takeWhile (fun c => c ≠ '\'')
    match rest.drop run.length with
    | '\'' :: _ => if run.isEmpty then none else some run
    | _ => none
  let w := cs.takeWhile isWordChar
  let withGroup : Option (List Char) :=
    if w.isEmpty then none
    else
      match cs.drop w.length with
      | '.' :: r => attempt r
      | _ => none
  match withGroup with
  | some cap => some cap
  | none => attempt cs

/-- `re.search(r"nextval\('(?:[\w]+\.)?([^']+)'", s)`: leftmost match
wins; at each occurrence of the literal `nextval('` the tail is tried,
and on failure the search resumes at the next character. Returns the
captured group 1. -/
def findSeqName : List Char → Option (List Char)
  | [] => none
  | c :: rest =>
    if "nextval('".data.isPrefixOf (c :: rest) then
      match regexTailCapture ((c :: rest).drop 9) with
      | some cap => some cap
      | none => findSeqName rest
    else findSeqName rest

/-- `fix_sequence_references(conn, source_schema, target_schema, columns)`:
for each column whose default mentions `nextval` and matches the sequence
regex, replace `source_schema.seq` by `target_schema.seq` and then the
quoted `'seq'` by `'target_schema.seq'` in the default; other columns
pass through unchanged. -/
def fix_sequence_references (source_schema target_schema : String)
    (columns : List Column) : List Column :=
  columns.map fun col =>
    match col.column_default with
    | none => col
    | some d =>
      if strContains d "nextval" then
        match findSeqName d.data with
        | some seqChars =>
          let seq_name : String := ⟨seqChars⟩
          let new_default :=
            strReplace d (source_schema ++ "." ++ seq_name)
              (target_schema ++ "." ++ seq_name)
          let new_default :=
            strReplace new_default ("'" ++ seq_name ++ "'")
              ("'" ++ target_schema ++ "." ++ seq_name ++ "'")
          { col with column_default := some new_default }
        | none => col
      else col

/-- The script's nested `for name_pattern ... for col ...` loops: the
first column name (in list order) containing the first pattern (in
pattern order) that any name contains. -/
def findNameByPatterns (timestamp_columns : List String) :
    List String → Option String
  | [] => none
  | p :: ps =>
    match timestamp_columns.find? fun c => strContains (pyLower c) p with
    | some c => some c
    | none => findNameByPatterns timestamp_columns ps

/-- `get_last_modified_column(columns)`: among columns whose declared
type contains `timestamp` or `date`, prefer (pattern-major order) a name
containing one of the modification patterns, then one of the creation
patterns, then the first timestamp column, else none. -/
def get_last_modified_column (columns : List Column) : Option String :=
  let timestamp_columns :=
    (columns.filter fun col =>
      strContains (pyLower col.data_type) "timestamp" ||
      strContains (pyLower col.data_type) "date").map Column.column_name
  match findNameByPatterns timestamp_columns
      ["updated_at", "modified_at", "modified", "updated", "changed_at"] with
  | some c => some c
  | none =>
    match findNameByPatterns timestamp_columns
        ["created_at", "creation_date", "created"] with
    | some c => some c
    | none => timestamp_columns.head?

/-- As `findNameByPatterns`, but searching the column descriptors
themselves (used by the specification-side definition below). -/
def findColumnByPatterns (candidates : List Column) :
    List String → Option Column
  | [] => none
  | p :: ps =>
    match candidates.find? fun c => strContains (pyLower c.column_name) p with
    | some c => some c
    | none => findColumnByPatterns candidates ps

/-- Modelled from the spec: `chooseModificationColumn(columns)` —
candidates are the columns whose declared type contains a timestamp or
date marker; prefer a name containing one of
`updated_at, modified_at, modified, updated, changed_at` (first match by
pattern, then first matching column), else one of
`created_at, creation_date, created`, else the first timestamp-typed
column in ordinal order, else none. -/
def chooseModificationColumnSpec (columns : List Column) : Option String :=
  let candidates :=
    columns.filter fun col =>
      strContains (pyLower col.data_type) "timestamp" ||
      strContains (pyLower col.data_type) "date"
  match findColumnByPatterns candidates
      ["updated_at", "modified_at", "modified", "updated", "changed_at"] with
  | some c => some c.column_name
  | none =>
    match findColumnByPatterns candidates
        ["created_at", "creation_date", "created"] with
    | some c => some c.column_name
    | none => candidates.head?.map Column.column_name

/-- A source/target table row for the copy engine: a primary-key value
and the value of the modification column (none = SQL NULL or the table
has no such column). -/
structure SRow where
  pk : Nat
  modified : Option Nat
  deriving Repr, DecidableEq

/-- The incremental threshold of `copy_data`'s WHERE clause: present only
when `incremental and last_sync_time and modified_column` all hold
(`WHERE "modified_column" > %s` with the resume timestamp as parameter). -/
def whereThreshold (incremental : Bool) (last_sync_time : Option Nat)
    (modified_column : Option String) : Option Nat :=
  if incremental then
    match last_sync_time, modified_column with
    | some t, some _ => some t
    | _, _ => none
  else none

/-- The rows the source-side SELECT returns under the (optional)
incremental threshold: all rows, or those with `modified > t`
(`NULL > t` is not true in SQL, so NULL-modified rows are excluded). -/
def selectRows (thr : Option Nat) (rows : List SRow) : List SRow :=
  match thr with
  | none => rows
  | some t => rows.filter fun r =>
      match r.modified with
      | some m => t < m
      | none => false

/-- Worker for `batchChunks`: `acc` is the current chunk (reversed),
`cap` the capacity left in it; a full chunk is emitted and the capacity
reset to `n`; the last partial chunk is emitted at the end. -/
def chunksGo (n : Nat) : List SRow → List SRow → Nat → List (List SRow)
  | [], acc, _ => if acc.isEmpty then [] else [acc.reverse]
  | x :: xs, acc, cap + 1 =>
    if cap = 0 then (x :: acc).reverse :: chunksGo n xs [] n
    else chunksGo n xs (x :: acc) cap
  | _ :: _, _, 0 => []

/-- The `fetchmany(batch_size)` loop of `copy_data`: successive chunks of
at most `n` rows, the last possibly shorter; the loop breaks on the
first empty fetch (`fetchmany(0)` returns no rows, so with batch size 0
the loop breaks at once and fetches nothing). -/
def batchChunks (n : Nat) (l : List SRow) : List (List SRow) :=
  if n = 0 then [] else chunksGo n l [] n

/-- One row of `INSERT ... ON CONFLICT DO NOTHING`: with a primary key,
a row whose key is already present is silently skipped; without any
unique constraint no conflict ever fires and the row is appended. -/
def insertRow (hasPK : Bool) (target : List SRow) (r : SRow) : List SRow :=
  if hasPK && target.any fun t => t.pk = r.pk then target
  else target ++ [r]

/-- What `copy_data` leaves behind: the final target rows and the sizes
of the non-empty batches the fetch loop produced. -/
structure CopyResult where
  target : List SRow
  batches : List Nat
  deriving Repr, DecidableEq

/-- `copy_data(...)`: build the incremental WHERE threshold; read the
target row count (an exception during the check leaves it at 0); if the
target count is 0, force a full copy by discarding the WHERE clause, its
parameters and the resume timestamp; then stream the selected source
rows in batches, inserting each with conflict-skip semantics. -/
def copy_data (source target : List SRow) (hasPK countCheckOk : Bool)
    (incremental : Bool) (last_sync_time : Option Nat)
    (modified_column : Option String) (batch_size : Nat) : CopyResult :=
  let thr0 := whereThreshold incremental last_sync_time modified_column
  let target_row_count := if countCheckOk then target.length else 0
  let thr := if target_row_count = 0 then none else thr0
  let selected := selectRows thr source
  let chunks := batchChunks batch_size selected
  let finalTarget := chunks.foldl (fun t b => b.foldl (insertRow hasPK) t) target
  { target := finalTarget, batches := chunks.map List.length }

/-- The source-side sequence descriptor `get_sequence_details` assembles
(`SELECT * FROM seq` merged with the `information_schema` data type);
each field optional, mirroring `dict.get(key, default)`. -/
structure SeqDetails where
  last_value : Option Nat
  increment_by : Option Int
  data_type : Option String
  deriving Repr, DecidableEq

/-- The state of one sequence living in the target schema. -/
structure SeqState where
  value : Nat
  increment : Int
  dtype : String
  deriving Repr, DecidableEq

/-- A DDL statement `create_sequence_in_target` may issue. -/
inductive SeqStmt where
  /-- `CREATE SEQUENCE name INCREMENT BY i START WITH s AS t` -/
  | create (name : String) (increment : Int) (start : Nat) (dtype : String)
  /-- bare `CREATE SEQUENCE name` (no details available) -/
  | createBasic (name : String)
  deriving Repr, DecidableEq

/-- `create_sequence_in_target(...)`: if a sequence of this name already
exists in the target schema, return without issuing any statement;
otherwise create it, using the source descriptor's increment, last value
(as start) and data type when a descriptor is given (each defaulting to
1 / 1 / bigint), or a bare CREATE SEQUENCE when it is not. -/
def create_sequence_in_target (target : List (String × SeqState))
    (sequence_name : String) (seq_details : Option SeqDetails) :
    List (String × SeqState) × List SeqStmt :=
  if target.any fun p => p.1 = sequence_name then (target, [])
  else
    match seq_details with
    | none =>
      (target ++ [(sequence_name, ⟨1, 1, "bigint"⟩)],
       [SeqStmt.createBasic sequence_name])
    | some d =>
      let start_value := d.last_value.getD 1
      let increment := d.increment_by.getD 1
      let data_type := d.data_type.getD "bigint"
      (target ++ [(sequence_name, ⟨start_value, increment, data_type⟩)],
       [SeqStmt.create sequence_name increment start_value data_type])

/-- `get_last_target_timestamp(conn, schema, table, modified_column)`:
none when the column argument is absent; otherwise query
`MAX(modified_column)` on the target table — a database error (table
missing, modelled as `none`) is caught and yields none; a NULL maximum
(no rows, or no non-null values) yields none; else the maximum. -/
def get_last_target_timestamp (table : Option (List SRow))
    (modified_column : Option String) : Option Nat :=
  match modified_column with
  | none => none
  | some _ =>
    match table with
    | none => none
    | some rows =>
      (rows.filterMap SRow.modified).foldl
        (fun m v =>
          some (match m with
                | none => v
                | some x => max x v)) none

/-- The outside world `try_direct_transfer` interacts with: each database
step either yields a value or raises (`Except.error`). -/
structure TransferEnv where
  /-- computing `same_server` from the two connections' DSN parameters -/
  dsn : Except String Bool
  /-- the same-server `INSERT ... SELECT` (row count on success) -/
  directInsert : Except String Int
  /-- `SELECT 1 FROM pg_extension WHERE extname = 'dblink'` -/
  dblinkCheck : Except String Bool
  /-- `SELECT dblink_connect(...)` -/
  dblinkConnect : Except String Unit
  /-- the `INSERT ... SELECT * FROM dblink(...)` transfer (row count) -/
  dblinkTransfer : Except String Int
  /-- `SELECT dblink_disconnect(...)` -/
  dblinkDisconnect : Except String Unit

/-- `try_direct_transfer(...)`: the whole body runs under an outer
`try/except` that converts any exception into `False`; the dblink
portion additionally runs under an inner `try/except` that logs and
falls through to `return False`.  `True` is returned only from the two
success paths. -/
def try_direct_transfer (env : TransferEnv) : Except String Bool :=
  tryCatch
    (do
      let same_server ← env.dsn
      if same_server then do
        let _row_count ← env.directInsert
        pure true
      else do
        let used ← tryCatch
          (do
            let has_dblink ← env.dblinkCheck
            if has_dblink then do
              let _ ← env.dblinkConnect
              let _row_count ← env.dblinkTransfer
              let _ ← env.dblinkDisconnect
              pure true
            else pure false)
          (fun _e => pure false)
        if used then pure true else pure false)
    (fun _e => pure false)

/-- One observable step of `main`'s per-table loop. -/
inductive Event where
  /-- a call to `try_direct_transfer` for this table (never emitted:
  `main` contains no such call) -/
  | directTransferAttempt (table : String)
  /-- `create_table_in_target` for this table -/
  | createTable (table : String)
  /-- the `copy_data` batch engine run for this table -/
  | batchCopy (table : String)
  /-- the post-loop `fix_sequence_references` call -/
  | fixSeqRefs
  deriving Repr, DecidableEq

/-- One iteration of `main`'s per-table loop: the loop body binds the
Python local `columns` to this table's columns, skips the table when it
has no columns, and otherwise creates the table and runs `copy_data`. -/
def mainStep (acc : Option (List Column) × List Event)
    (entry : String × List Column) : Option (List Column) × List Event :=
  let colsVar := some entry.2
  if entry.2 = [] then (colsVar, acc.2)
  else
    (colsVar, acc.2 ++ [Event.createTable entry.1, Event.batchCopy entry.1])

/-- The per-table loop of `main` (lines 582–622).  The first component
tracks the binding of the loop body's local `columns`
(`none` = never bound). -/
def mainLoop (tables : List (String × List Column)) :
    Option (List Column) × List Event :=
  tables.foldl mainStep (none, [])

/-- The tail of `main` after schema and sequence setup: run the
per-table loop, then call `fix_sequence_references(..., columns)` — a
`NameError` when the loop body never bound `columns`. -/
def main_run (tables : List (String × List Column)) :
    Except String (List Event) :=
  match mainLoop tables with
  | (none, _) => Except.error "NameError: name 'columns' is not defined"
  | (some _, evs) => Except.ok (evs ++ [Event.fixSeqRefs])

/-- The rows of this table's pass in `main`'s per-table loop. -/
def tableEvents (entry : String × List Column) : List Event :=
  if entry.2 = [] then []
  else [Event.createTable entry.1, Event.batchCopy entry.1]

/-! ## Helper lemmas -/

theorem mem_insertRow {hp : Bool} {T : List SRow} {t : SRow} (r : SRow)
    (h : t ∈ T) : t ∈ insertRow hp T r := by
  unfold insertRow
  split
  · exact h
  · exact List.mem_append_left _ h

theorem mem_foldl_insert {hp : Bool} {t : SRow} :
    ∀ (l : List SRow) (T : List SRow), t ∈ T → t ∈ l.foldl (insertRow hp) T := by
  intro l
  induction l with
  | nil => exact fun T h => h
  | cons a as ih => exact fun T h => ih _ (mem_insertRow a h)

theorem pk_mem_insertRow_self (T : List SRow) (a : SRow) :
    ∃ t ∈ insertRow true T a, t.pk = a.pk := by
  unfold insertRow
  by_cases h : (T.any fun t => t.pk = a.pk) = true
  · obtain ⟨t, ht, he⟩ := List.any_eq_true.mp h
    exact ⟨t, by simp [h, ht], of_decide_eq_true he⟩
  · exact ⟨a, by simp [Bool.eq_false_iff.mpr h], rfl⟩

theorem exists_pk_foldl {r : SRow} :
    ∀ (l : List SRow) (T : List SRow), r ∈ l →
      ∃ t ∈ l.foldl (insertRow true) T, t.pk = r.pk := by
  intro l
  induction l with
  | nil => intro T h; cases h
  | cons a as ih =>
    intro T h
    rcases List.mem_cons.mp h with rfl | htail
    · obtain ⟨t, ht, he⟩ := pk_mem_insertRow_self T r
      exact ⟨t, mem_foldl_insert as _ ht, he⟩
    · exact ih _ htail

theorem foldl_insert_noop :
    ∀ (l : List SRow) (T : List SRow),
      (∀ r ∈ l, ∃ t ∈ T, t.pk = r.pk) → l.foldl (insertRow true) T = T := by
  intro l
  induction l with
  | nil => intro T _; rfl
  | cons a as ih =>
    intro T h
    obtain ⟨t, ht, he⟩ := h a (List.mem_cons_self a as)
    have hins : insertRow true T a = T := by
      unfold insertRow
      have hany : (T.any fun u => u.pk = a.pk) = true := by
        simp only [List.any_eq_true, decide_eq_true_eq]
        exact ⟨t, ht, he⟩
      simp [hany]
    rw [List.foldl_cons, hins]
    exact ih T fun r hr => h r (List.mem_cons_of_mem a hr)

theorem length_foldl_insert_fresh {hp : Bool} :
    ∀ (l : List SRow) (T : List SRow), (l.map SRow.pk).Nodup →
      (∀ r ∈ l, ∀ t ∈ T, t.pk ≠ r.pk) →
      (l.foldl (insertRow hp) T).length = T.length + l.length := by
  intro l
  induction l with
  | nil => intro T _ _; rfl
  | cons a as ih =>
    intro T hnd hfresh
    have hany : (T.any fun t => t.pk = a.pk) = false := by
      rw [List.any_eq_false]
      intro t ht
      exact fun he => hfresh a (List.mem_cons_self a as) t ht (of_decide_eq_true he)
    have hins : insertRow hp T a = T ++ [a] := by
      unfold insertRow
      simp [hany]
    rw [show ((a :: as).map SRow.pk) = a.pk :: as.map SRow.pk from rfl,
      List.nodup_cons] at hnd
    have hfresh' : ∀ r ∈ as, ∀ t ∈ T ++ [a], t.pk ≠ r.pk := by
      intro r hr t ht
      rcases List.mem_append.mp ht with hT | ha
      · exact hfresh r (List.mem_cons_of_mem a hr) t hT
      · rcases List.mem_singleton.mp ha with rfl
        intro he
        exact hnd.1 (by rw [he]; exact List.mem_map_of_mem SRow.pk hr)
    rw [List.foldl_cons, hins]
    rw [ih (T ++ [a]) hnd.2 hfresh']
    simp [Nat.add_assoc, Nat.add_comm 1]

theorem chunksGo_flatten (n : Nat) :
    ∀ (l : List SRow) (acc : List SRow) (k : Nat), 0 < n →
      (chunksGo n l acc (k + 1)).flatten = acc.reverse ++ l := by
  intro l
  induction l with
  | nil =>
    intro acc k _
    cases acc <;> simp [chunksGo]
  | cons x xs ih =>
    intro acc k hn
    by_cases hk : k = 0
    · subst hk
      obtain ⟨m, rfl⟩ : ∃ m, n = m + 1 := ⟨n - 1, by omega⟩
      simp [chunksGo, ih [] m hn]
    · obtain ⟨j, rfl⟩ : ∃ j, k = j + 1 := ⟨k - 1, by omega⟩
      simp [chunksGo, hk, ih (x :: acc) j hn]

theorem batchChunks_flatten (n : Nat) (l : List SRow) (hn : n ≠ 0) :
    (batchChunks n l).flatten = l := by
  unfold batchChunks
  rw [if_neg hn]
  obtain ⟨m, rfl⟩ : ∃ m, n = m + 1 := ⟨n - 1, by omega⟩
  simpa using chunksGo_flatten (m + 1) l [] m (by omega)

theorem chunks_foldl (n : Nat) (l : List SRow) (T : List SRow) (hp : Bool) :
    (batchChunks n l).foldl (fun t b => b.foldl (insertRow hp) t) T
      = if n = 0 then T else l.foldl (insertRow hp) T := by
  by_cases hn : n = 0
  · subst hn
    simp [batchChunks]
  · rw [if_neg hn]
    conv_rhs => rw [← batchChunks_flatten n l hn]
    rw [List.foldl_flatten]

theorem copy_data_full_target (source T : List SRow) (hp cc : Bool)
    (bs : Nat) :
    (copy_data source T hp cc false none none bs).target
      = if bs = 0 then T else source.foldl (insertRow hp) T := by
  unfold copy_data whereThreshold selectRows
  simp [chunks_foldl]

theorem findNameByPatterns_eq_map (cands : List Column) (pats : List String) :
    findNameByPatterns (cands.map Column.column_name) pats
      = (findColumnByPatterns cands pats).map Column.column_name := by
  induction pats with
  | nil => rfl
  | cons p ps ih =>
    simp only [findNameByPatterns, findColumnByPatterns, List.find?_map]
    cases h : cands.find? fun c => strContains (pyLower c.column_name) p with
    | none =>
      have h' : cands.find?
          ((fun c => strContains (pyLower c) p) ∘ Column.column_name) = none := h
      simp [h', ih]
    | some c =>
      have h' : cands.find?
          ((fun c => strContains (pyLower c) p) ∘ Column.column_name) = some c := h
      simp [h']

theorem map_eq_self_of_eq {α : Type} (l : List α) (f : α → α)
    (h : ∀ x ∈ l, f x = x) : l.map f = l := by
  induction l with
  | nil => rfl
  | cons x xs ih =>
    simp only [List.map_cons, h x (List.mem_cons_self x xs)]
    exact congrArg _ (ih fun y hy => h y (List.mem_cons_of_mem x hy))

theorem foldl_optmax (as : List Nat) (a : Nat) :
    as.foldl (fun m v => some (match m with | none => v | some x => max x v))
        (some a)
      = some (as.foldl max a) := by
  induction as generalizing a with
  | nil => rfl
  | cons b bs ih => simpa using ih (max a b)

theorem foldl_optmax_none (l : List Nat) :
    l.foldl (fun m v => some (match m with | none => v | some x => max x v)) none
      = l.max? := by
  cases l with
  | nil => rfl
  | cons a as =>
    simp only [List.foldl_cons, List.max?]
    exact foldl_optmax as a

/-! ## Claims -/

/-- C2: modification-column selection considers exactly the
timestamp/date-typed columns and follows the spec's preference order
(its own rendering `chooseModificationColumnSpec`); on
`{id, name, updated_at, created_at}` it picks `updated_at`, on
`{id, name, created_at}` it picks `created_at`, and with no
timestamp-typed column it yields none. -/
theorem modification_column_selection :
    (∀ columns, get_last_modified_column columns
        = chooseModificationColumnSpec columns) ∧
    get_last_modified_column
        [⟨"id", "bigint", none, "NO"⟩, ⟨"name", "text", none, "YES"⟩,
         ⟨"updated_at", "timestamp without time zone", none, "YES"⟩,
         ⟨"created_at", "timestamp without time zone", none, "YES"⟩]
      = some "updated_at" ∧
    get_last_modified_column
        [⟨"id", "bigint", none, "NO"⟩, ⟨"name", "text", none, "YES"⟩,
         ⟨"created_at", "timestamp without time zone", none, "YES"⟩]
      = some "created_at" ∧
    get_last_modified_column
        [⟨"id", "bigint", none, "NO"⟩, ⟨"name", "text", none, "YES"⟩]
      = none := by
  refine ⟨fun columns => ?_, by decide, by decide, by decide⟩
  unfold get_last_modified_column chooseModificationColumnSpec
  simp only [findNameByPatterns_eq_map, List.head?_map]
  cases findColumnByPatterns
      (columns.filter fun col =>
        strContains (pyLower col.data_type) "timestamp" ||
        strContains (pyLower col.data_type) "date")
      ["updated_at", "modified_at", "modified", "updated", "changed_at"] with
  | some c => rfl
  | none =>
    cases findColumnByPatterns
        (columns.filter fun col =>
          strContains (pyLower col.data_type) "timestamp" ||
          strContains (pyLower col.data_type) "date")
        ["created_at", "creation_date", "created"] with
    | some c => rfl
    | none => rfl

/-- C3: when the target-side row count is zero — including when the
count check fails because the target table is missing
(`countCheckOk = false`) — `copy_data` discards the incremental WHERE
filter, its parameters and the resume timestamp, so an incremental run
with any resume timestamp behaves exactly like a full run. -/
theorem empty_target_forces_full_copy (source target : List SRow)
    (hasPK countCheckOk : Bool) (last_sync_time : Option Nat)
    (modified_column : Option String) (batch_size : Nat)
    (h : (if countCheckOk then target.length else 0) = 0) :
    copy_data source target hasPK countCheckOk true last_sync_time
        modified_column batch_size
      = copy_data source target hasPK countCheckOk false none none
          batch_size := by
  unfold copy_data whereThreshold
  simp [h]

/-- Witness for C3 at a concrete input: an incremental copy with resume
timestamp 3 into an empty target equals the full copy. -/
theorem empty_target_forces_full_copy_witness :
    copy_data [⟨1, some 5⟩] [] true true true (some 3) (some "updated_at") 10
      = copy_data [⟨1, some 5⟩] [] true true false none none 10 :=
  empty_target_forces_full_copy [⟨1, some 5⟩] [] true true (some 3)
    (some "updated_at") 10 (by decide)

/-- C4 (counterexample): the sequence-reference rewrite is not
idempotent on every column list — on the default `nextval('a'a')` a
second application rewrites again. -/
theorem sequence_rewrite_not_idempotent :
    fix_sequence_references "public" "stage"
        (fix_sequence_references "public" "stage"
          [⟨"id", "bigint", some "nextval('a'a')", "NO"⟩])
      ≠ fix_sequence_references "public" "stage"
          [⟨"id", "bigint", some "nextval('a'a')", "NO"⟩] := by decide

/-- C4 (amended): with source schema `public` and target schema `stage`,
a default `nextval('public.orders_id_seq'::regclass)` is rewritten to
reference `stage.orders_id_seq`, and a second application to that output
changes nothing; every column whose default does not mention `nextval`
passes through unchanged (for any schemas and column list). -/
theorem sequence_default_rewrite :
    fix_sequence_references "public" "stage"
        [⟨"id", "bigint", some "nextval('public.orders_id_seq'::regclass)", "NO"⟩]
      = [⟨"id", "bigint", some "nextval('stage.orders_id_seq'::regclass)", "NO"⟩] ∧
    fix_sequence_references "public" "stage"
        (fix_sequence_references "public" "stage"
          [⟨"id", "bigint", some "nextval('public.orders_id_seq'::regclass)", "NO"⟩])
      = fix_sequence_references "public" "stage"
          [⟨"id", "bigint", some "nextval('public.orders_id_seq'::regclass)", "NO"⟩] ∧
    ∀ source_schema target_schema columns,
      (∀ col ∈ columns, ∀ d, col.column_default = some d →
        strContains d "nextval" = false) →
      fix_sequence_references source_schema target_schema columns = columns := by
  refine ⟨by decide, by decide, fun src tgt columns h => ?_⟩
  unfold fix_sequence_references
  apply map_eq_self_of_eq
  intro col hcol
  cases hd : col.column_default with
  | none => simp [hd]
  | some d => simp [hd, h col hcol d hd]

/-- Witness for C4's amended universal part: a list of columns with no
`nextval` default passes through the rewrite unchanged. -/
theorem sequence_default_rewrite_witness :
    fix_sequence_references "public" "stage"
        [⟨"id", "bigint", none, "NO"⟩, ⟨"name", "text", some "''::text", "YES"⟩]
      = [⟨"id", "bigint", none, "NO"⟩, ⟨"name", "text", some "''::text", "YES"⟩] :=
  sequence_default_rewrite.2.2 "public" "stage"
    [⟨"id", "bigint", none, "NO"⟩, ⟨"name", "text", some "''::text", "YES"⟩]
    (by decide)

/-- C6: `create_sequence_in_target` is a no-op (no statement issued,
target state — in particular every existing counter — unchanged) when a
sequence of the same name already exists; when it is absent, it issues
exactly one CREATE with the source descriptor's increment, last value
as start, and data type. -/
theorem ensure_sequence :
    (∀ (target : List (String × SeqState)) name details,
      (target.any fun p => p.1 = name) = true →
      create_sequence_in_target target name details = (target, [])) ∧
    (∀ (target : List (String × SeqState)) name (d : SeqDetails),
      (target.any fun p => p.1 = name) = false →
      create_sequence_in_target target name (some d)
        = (target ++ [(name, ⟨d.last_value.getD 1, d.increment_by.getD 1,
             d.data_type.getD "bigint"⟩)],
           [SeqStmt.create name (d.increment_by.getD 1) (d.last_value.getD 1)
             (d.data_type.getD "bigint")])) := by
  constructor
  · intro target name details h
    unfold create_sequence_in_target
    simp [h]
  · intro target name d h
    unfold create_sequence_in_target
    simp [h]

/-- Witness for C6 at concrete inputs: an existing sequence `s` (counter
7) is left untouched with no statement; a missing one is created from
the descriptor `{last_value := 99, increment_by := 2, data_type :=
integer}`. -/
theorem ensure_sequence_witness :
    create_sequence_in_target [("s", ⟨7, 1, "bigint"⟩)] "s"
        (some ⟨some 99, some 2, some "integer"⟩)
      = ([("s", ⟨7, 1, "bigint"⟩)], []) ∧
    create_sequence_in_target [] "s" (some ⟨some 99, some 2, some "integer"⟩)
      = ([("s", ⟨99, 2, "integer"⟩)], [SeqStmt.create "s" 2 99 "integer"]) :=
  ⟨ensure_sequence.1 [("s", ⟨7, 1, "bigint"⟩)] "s"
      (some ⟨some 99, some 2, some "integer"⟩) (by decide),
   ensure_sequence.2 [] "s" ⟨some 99, some 2, some "integer"⟩ (by decide)⟩

/-- C8: resume-point lookup returns none when the modification column is
absent, when the target table does not exist (the error is caught), and
when the table has no rows; otherwise it returns the maximum of the
modification column's non-null values. -/
theorem resume_point_lookup :
    (∀ table, get_last_target_timestamp table none = none) ∧
    (∀ c, get_last_target_timestamp none (some c) = none) ∧
    (∀ c, get_last_target_timestamp (some []) (some c) = none) ∧
    (∀ rows c, get_last_target_timestamp (some rows) (some c)
        = (rows.filterMap SRow.modified).max?) := by
  refine ⟨fun table => ?_, fun c => rfl, fun c => rfl, fun rows c => ?_⟩
  · cases table <;> rfl
  · unfold get_last_target_timestamp
    exact foldl_optmax_none _

/-- C10: with zero tables in the source schema the per-table loop never
binds the Python local `columns`, so the post-loop
`fix_sequence_references(..., columns)` raises `NameError` and the run
does not complete. -/
theorem empty_schema_raises_name_error :
    main_run [] = Except.error "NameError: name 'columns' is not defined" :=
  rfl

/-- C5: for a table with a primary key, re-running the full copy over an
unchanged source leaves the target row count exactly as after the first
run — `ON CONFLICT DO NOTHING` skips every conflicting row, so nothing
is duplicated. -/
theorem rerun_preserves_row_count (source T0 : List SRow) (bs : Nat)
    (cc1 cc2 : Bool) :
    ((copy_data source (copy_data source T0 true cc1 false none none bs).target
        true cc2 false none none bs).target).length
      = ((copy_data source T0 true cc1 false none none bs).target).length := by
  rw [copy_data_full_target, copy_data_full_target]
  by_cases hbs : bs = 0
  · simp [hbs]
  · rw [if_neg hbs, if_neg hbs]
    have hall : ∀ r ∈ source,
        ∃ t ∈ List.foldl (insertRow true) T0 source, t.pk = r.pk :=
      fun r hr => exists_pk_foldl source T0 hr
    rw [foldl_insert_noop source _ hall]

/-- The 2,500-row source table of the batch-completeness scenario. -/
def source2500 : List SRow :=
  (List.range 2500).map fun i => ⟨i, none⟩

set_option maxRecDepth 100000 in
/-- C7: copying a 2,500-row source with batch size 1000 into an empty
target performs exactly 3 fetch cycles of 1000, 1000 and 500 rows, and
the final target row count is 2,500. -/
theorem batch_completeness_2500 :
    (copy_data source2500 [] true true false none none 1000).batches
        = [1000, 1000, 500] ∧
    (copy_data source2500 [] true true false none none 1000).target.length
        = 2500 := by
  constructor
  · decide
  · rw [copy_data_full_target, if_neg (by omega)]
    have hnd : (source2500.map SRow.pk).Nodup := by
      have hmap : source2500.map SRow.pk = List.range 2500 := by
        unfold source2500
        rw [List.map_map]
        exact List.map_id _
      rw [hmap]
      exact List.nodup_range 2500
    rw [length_foldl_insert_fresh source2500 [] hnd (by simp)]
    simp [source2500]

/-- C1 (counterexample): in a run over one table, the batch engine copy
happens with no direct-transfer attempt anywhere in the trace, so the
optimizer is not "attempted first". -/
theorem migration_never_tries_direct_transfer :
    Event.batchCopy "users"
        ∈ (mainLoop [("users", [⟨"id", "bigint", none, "NO"⟩])]).2 ∧
    Event.directTransferAttempt "users"
        ∉ (mainLoop [("users", [⟨"id", "bigint", none, "NO"⟩])]).2 := by
  decide

theorem mainLoop_events (tables : List (String × List Column)) :
    ∀ (cv : Option (List Column)) (acc : List Event),
      (tables.foldl mainStep (cv, acc)).2
        = acc ++ (tables.map tableEvents).flatten := by
  induction tables with
  | nil => intro cv acc; simp
  | cons e ts ih =>
    intro cv acc
    rw [List.foldl_cons]
    by_cases he : e.2 = []
    · rw [show mainStep (cv, acc) e = (some e.2, acc) from by
        simp [mainStep, he]]
      rw [ih]
      simp [tableEvents, he]
    · rw [show mainStep (cv, acc) e
          = (some e.2,
             acc ++ [Event.createTable e.1, Event.batchCopy e.1]) from by
        simp [mainStep, he]]
      rw [ih]
      simp [tableEvents, he]

/-- C1 (amended): `main` never attempts the Direct-Transfer Optimizer —
no trace of the per-table loop contains a direct-transfer attempt — and
every table with at least one column is copied by the Batch Copy
Engine unconditionally. -/
theorem batch_engine_always_used (tables : List (String × List Column)) :
    (∀ t, Event.directTransferAttempt t ∉ (mainLoop tables).2) ∧
    (∀ entry ∈ tables, entry.2 ≠ [] →
      Event.batchCopy entry.1 ∈ (mainLoop tables).2) := by
  have hsnd : (mainLoop tables).2 = (tables.map tableEvents).flatten := by
    unfold mainLoop
    simpa using mainLoop_events tables none []
  constructor
  · intro t hmem
    rw [hsnd] at hmem
    obtain ⟨l, hl, hm⟩ := List.mem_flatten.mp hmem
    obtain ⟨e, _, rfl⟩ := List.mem_map.mp hl
    unfold tableEvents at hm
    by_cases h2 : e.2 = [] <;> simp [h2] at hm
  · intro e he hne
    rw [hsnd]
    refine List.mem_flatten.mpr ⟨tableEvents e, List.mem_map_of_mem _ he, ?_⟩
    unfold tableEvents
    simp [hne]

/-- Witness for C1's amended theorem at a concrete table list. -/
theorem batch_engine_always_used_witness :
    Event.directTransferAttempt "users"
        ∉ (mainLoop [("users", [⟨"id", "bigint", none, "NO"⟩])]).2 ∧
    Event.batchCopy "users"
        ∈ (mainLoop [("users", [⟨"id", "bigint", none, "NO"⟩])]).2 :=
  ⟨(batch_engine_always_used [("users", [⟨"id", "bigint", none, "NO"⟩])]).1
      "users",
   (batch_engine_always_used [("users", [⟨"id", "bigint", none, "NO"⟩])]).2
      ("users", [⟨"id", "bigint", none, "NO"⟩]) (by decide) (by decide)⟩

/-- C9: `try_direct_transfer` never lets an exception escape: on every
environment it returns `ok false` or `ok true`, and it returns `ok true`
only when one of its two transfer paths ran without any failure — so
any failure of any kind yields the `False` fallback signal. -/
theorem direct_transfer_swallows_failures (env : TransferEnv) :
    try_direct_transfer env = Except.ok false ∨
    (try_direct_transfer env = Except.ok true ∧
      ((env.dsn = Except.ok true ∧ ∃ n, env.directInsert = Except.ok n) ∨
       (env.dsn = Except.ok false ∧ env.dblinkCheck = Except.ok true ∧
        env.dblinkConnect = Except.ok () ∧
        (∃ n, env.dblinkTransfer = Except.ok n) ∧
        env.dblinkDisconnect = Except.ok ()))) := by
  obtain ⟨d, di, dc, dcon, dtr, ddis⟩ := env
  cases d with
  | error e => left; rfl
  | ok same =>
    cases same
    · cases dc with
      | error e => left; rfl
      | ok has =>
        cases has
        · left; rfl
        · cases dcon with
          | error e => left; rfl
          | ok u =>
            cases u
            cases dtr with
            | error e => left; rfl
            | ok n =>
              cases ddis with
              | error e => left; rfl
              | ok u' =>
                cases u'
                right
                exact ⟨rfl, Or.inr ⟨rfl, rfl, rfl, ⟨n, rfl⟩, rfl⟩⟩
    · cases di with
      | error e => left; rfl
      | ok n => right; exact ⟨rfl, Or.inl ⟨rfl, n, rfl⟩⟩

end PgMigrate
